import Mathlib

/-!
Verification of the table-file chunk store core: the varint / float binary
codec, the remote (S3) table reader's construction, ranged reads, retry and
rate-limit behaviour, and the SQL table editor's `Update`.

Go sources are embedded shallowly: `uint64` arithmetic is `Nat` with `% 2^64`
where overflow can occur, fallible paths return `Except`, and the reader's side
effects (network requests, gate slots, log lines, sleeps) are an explicit event
trace.
-/

set_option maxHeartbeats 1600000
set_option linter.unreachableTactic false
set_option linter.unusedTactic false
set_option linter.unusedVariables false

namespace DoltNbs

/-! ## Binary codec: Go `encoding/binary` varints (the canonical encoder and
byte-at-a-time decoder exercised by the repository's codec tests). -/

/-- Go `binary.PutUvarint`: LEB128, 7 payload bits per byte, high bit =
continuation.  The emitted continuation byte is `byte(x) | 0x80`, i.e.
`x % 0x100 ||| 0x80`. -/
def binaryPutUvarint (x : Nat) : List Nat :=
  if _h : x < 0x80 then [x]
  else (x % 0x100 ||| 0x80) :: binaryPutUvarint (x / 0x80)
termination_by x
decreasing_by omega

/-- Go `binary.Uvarint`'s loop: accumulator `x`, shift `s`, byte index `i`.
Returns the decoded value and the signed byte count, which is `≤ 0` on
overflow, exactly as in Go (`MaxVarintLen64 = 10`). -/
def binaryUvarintLoop : List Nat → Nat → Nat → Nat → Nat × Int
  | [], _, _, _ => (0, 0)
  | b :: rest, x, s, i =>
    if i = 10 then (0, -((i : Int) + 1))
    else if b < 0x80 then
      if i = 9 ∧ 1 < b then (0, -((i : Int) + 1))
      else ((x ||| b <<< s) % 2 ^ 64, (i : Int) + 1)
    else binaryUvarintLoop rest ((x ||| (b &&& 0x7f) <<< s) % 2 ^ 64) (s + 7) (i + 1)

/-- Go `binary.Uvarint`, the canonical byte-at-a-time decoder. -/
def binaryUvarint (buf : List Nat) : Nat × Int :=
  binaryUvarintLoop buf 0 0 0

/-- Go `binary.PutVarint`: zig-zag (`ux := uint64(x) << 1; if x < 0 { ux = ^ux }`)
then `PutUvarint`; `^ux` on `uint64` is `2^64 - 1 - ux`. -/
def binaryPutVarint (x : Int) : List Nat :=
  let u : Nat := ((x % (2 ^ 64 : Int)).toNat * 2) % 2 ^ 64
  binaryPutUvarint (if x < 0 then 2 ^ 64 - 1 - u else u)

/-- Go `binary.Varint`: decode the uvarint, then undo the zig-zag
(`x := int64(ux >> 1); if ux&1 != 0 { x = ^x }`). -/
def binaryVarint (buf : List Nat) : Int × Int :=
  let p := binaryUvarint buf
  (if p.1 &&& 1 ≠ 0 then -((p.1 >>> 1 : Nat) : Int) - 1 else ((p.1 >>> 1 : Nat) : Int),
   p.2)

/-- Modelled from the spec: the repository's branch-reduced "unrolled" fast-path
uvarint decoder `unrolledDecodeUVarint`, whose body is not under `src/` (only
its tests and benchmark are).  One explicit step per possible terminal length;
the spec's own contract — agreement with the canonical decoder for all
representable 64-bit magnitudes, tested over full `u64` — requires terminal
lengths up to 10, the maximal LEB128 length of a 64-bit value.  Indexing past
the supplied buffer is a bounds fault in Go and is never reached on the
canonical encodings the contract ranges over; the model returns `(0, 0)`
there. -/
def unrolledDecodeUVarint (buf : List Nat) : Nat × Int :=
  match buf with
  | [] => (0, 0)
  | b0 :: t0 =>
  if b0 < 0x80 then (b0, 1) else
  match t0 with
  | [] => (0, 0)
  | b1 :: t1 =>
  if b1 < 0x80 then ((b0 &&& 0x7f) ||| b1 <<< 7, 2) else
  match t1 with
  | [] => (0, 0)
  | b2 :: t2 =>
  if b2 < 0x80 then ((b0 &&& 0x7f) ||| (b1 &&& 0x7f) <<< 7 ||| b2 <<< 14, 3) else
  match t2 with
  | [] => (0, 0)
  | b3 :: t3 =>
  if b3 < 0x80 then
    ((b0 &&& 0x7f) ||| (b1 &&& 0x7f) <<< 7 ||| (b2 &&& 0x7f) <<< 14 ||| b3 <<< 21, 4) else
  match t3 with
  | [] => (0, 0)
  | b4 :: t4 =>
  if b4 < 0x80 then
    ((b0 &&& 0x7f) ||| (b1 &&& 0x7f) <<< 7 ||| (b2 &&& 0x7f) <<< 14 |||
     (b3 &&& 0x7f) <<< 21 ||| b4 <<< 28, 5) else
  match t4 with
  | [] => (0, 0)
  | b5 :: t5 =>
  if b5 < 0x80 then
    ((b0 &&& 0x7f) ||| (b1 &&& 0x7f) <<< 7 ||| (b2 &&& 0x7f) <<< 14 |||
     (b3 &&& 0x7f) <<< 21 ||| (b4 &&& 0x7f) <<< 28 ||| b5 <<< 35, 6) else
  match t5 with
  | [] => (0, 0)
  | b6 :: t6 =>
  if b6 < 0x80 then
    ((b0 &&& 0x7f) ||| (b1 &&& 0x7f) <<< 7 ||| (b2 &&& 0x7f) <<< 14 |||
     (b3 &&& 0x7f) <<< 21 ||| (b4 &&& 0x7f) <<< 28 ||| (b5 &&& 0x7f) <<< 35 |||
     b6 <<< 42, 7) else
  match t6 with
  | [] => (0, 0)
  | b7 :: t7 =>
  if b7 < 0x80 then
    ((b0 &&& 0x7f) ||| (b1 &&& 0x7f) <<< 7 ||| (b2 &&& 0x7f) <<< 14 |||
     (b3 &&& 0x7f) <<< 21 ||| (b4 &&& 0x7f) <<< 28 ||| (b5 &&& 0x7f) <<< 35 |||
     (b6 &&& 0x7f) <<< 42 ||| b7 <<< 49, 8) else
  match t7 with
  | [] => (0, 0)
  | b8 :: t8 =>
  if b8 < 0x80 then
    ((b0 &&& 0x7f) ||| (b1 &&& 0x7f) <<< 7 ||| (b2 &&& 0x7f) <<< 14 |||
     (b3 &&& 0x7f) <<< 21 ||| (b4 &&& 0x7f) <<< 28 ||| (b5 &&& 0x7f) <<< 35 |||
     (b6 &&& 0x7f) <<< 42 ||| (b7 &&& 0x7f) <<< 49 ||| b8 <<< 56, 9) else
  match t8 with
  | [] => (0, 0)
  | b9 :: _t9 =>
  if b9 < 0x80 then
    (((b0 &&& 0x7f) ||| (b1 &&& 0x7f) <<< 7 ||| (b2 &&& 0x7f) <<< 14 |||
      (b3 &&& 0x7f) <<< 21 ||| (b4 &&& 0x7f) <<< 28 ||| (b5 &&& 0x7f) <<< 35 |||
      (b6 &&& 0x7f) <<< 42 ||| (b7 &&& 0x7f) <<< 49 ||| (b8 &&& 0x7f) <<< 56 |||
      b9 <<< 63) % 2 ^ 64, 10)
  else (0, -10)

/-- Modelled from the spec: the repository's unrolled signed decoder
`unrolledDecodeVarint` — zig-zag decoding over `unrolledDecodeUVarint`. -/
def unrolledDecodeVarint (buf : List Nat) : Int × Int :=
  let p := unrolledDecodeUVarint buf
  (if p.1 &&& 1 ≠ 0 then -((p.1 >>> 1 : Nat) : Int) - 1 else ((p.1 >>> 1 : Nat) : Int),
   p.2)

/-! ### Codec helper lemmas -/

theorem and_0x7f (a : Nat) : a &&& 0x7f = a % 0x80 := by
  have h := Nat.and_pow_two_sub_one_eq_mod a 7
  norm_num at h
  exact h

theorem lor_shift_eq_add {a : Nat} (b s : Nat) (h : a < 2 ^ s) :
    a ||| b <<< s = a + b * 2 ^ s := by
  rw [Nat.shiftLeft_eq, Nat.lor_comm, mul_comm, ← Nat.mul_add_lt_is_or h b]
  ring

theorem putByte_eq (x : Nat) : x % 0x100 ||| 0x80 = x % 0x80 + 0x80 := by
  have hsplit : x % 0x100 = x % 0x80 + 0x80 * (x / 0x80 % 2) := by omega
  have hlt : x % 0x80 < 2 ^ 7 := by omega
  have hbase : (0x80 : Nat) ||| x % 0x80 = 0x80 + x % 0x80 := by
    have := Nat.mul_add_lt_is_or (i := 7) hlt 1
    norm_num at this
    omega
  have hcase : x / 0x80 % 2 = 0 ∨ x / 0x80 % 2 = 1 := by omega
  rcases hcase with hc | hc
  · rw [hsplit, hc, Nat.mul_zero, Nat.add_zero, Nat.lor_comm]
    omega
  · have h1 : x % 0x100 = 0x80 ||| x % 0x80 := by omega
    rw [h1, Nat.lor_comm (0x80 : Nat), Nat.lor_assoc, Nat.or_self, Nat.lor_comm]
    omega

theorem putUvarint_single {x : Nat} (h : x < 0x80) : binaryPutUvarint x = [x] := by
  rw [binaryPutUvarint]
  simp [h]

theorem putUvarint_cons {x : Nat} (h : ¬ x < 0x80) :
    binaryPutUvarint x = (x % 0x80 + 0x80) :: binaryPutUvarint (x / 0x80) := by
  rw [binaryPutUvarint]
  simp [h, putByte_eq]

theorem binaryUvarintLoop_put (v : Nat) :
    ∀ (x i : Nat) (rest : List Nat), x < 2 ^ (7 * i) → v < 2 ^ (64 - 7 * i) → i ≤ 9 →
    binaryUvarintLoop (binaryPutUvarint v ++ rest) x (7 * i) i
      = (x + v * 2 ^ (7 * i), (i : Int) + (binaryPutUvarint v).length) := by
  induction v using Nat.strong_induction_on with
  | _ v ih =>
    intro x i rest hx hv hi
    have hpow : 2 ^ (64 - 7 * i) * 2 ^ (7 * i) = 2 ^ 64 := by
      rw [← pow_add]
      congr 1
      omega
    by_cases h : v < 0x80
    · rw [putUvarint_single h]
      simp only [List.cons_append, List.nil_append, binaryUvarintLoop, List.length_cons,
        List.length_nil]
      rw [if_neg (by omega), if_pos h, if_neg]
      · rw [lor_shift_eq_add v (7 * i) hx, Nat.mod_eq_of_lt]
        · norm_num
        · have hmul : (v + 1) * 2 ^ (7 * i) ≤ 2 ^ (64 - 7 * i) * 2 ^ (7 * i) :=
            Nat.mul_le_mul_right _ (by omega)
          have hexp : (v + 1) * 2 ^ (7 * i) = v * 2 ^ (7 * i) + 2 ^ (7 * i) := by ring
          omega
      · rintro ⟨hi9, hb⟩
        subst hi9
        have hv2 : v < 2 := by simpa using hv
        omega
    · have hi8 : i ≤ 8 := by
        by_contra hgt
        have h9 : i = 9 := by omega
        subst h9
        have hv2 : v < 2 := by simpa using hv
        omega
      rw [putUvarint_cons h]
      simp only [List.cons_append, binaryUvarintLoop, List.length_cons]
      rw [if_neg (by omega), if_neg (by omega), and_0x7f]
      have hm : (v % 0x80 + 0x80) % 0x80 = v % 0x80 := by omega
      rw [hm, lor_shift_eq_add (v % 0x80) (7 * i) hx]
      have hstep : 2 ^ (7 * (i + 1)) = 2 ^ (7 * i) * 2 ^ 7 := by
        rw [show 7 * (i + 1) = 7 * i + 7 by ring, pow_add]
      have hx' : x + v % 0x80 * 2 ^ (7 * i) < 2 ^ (7 * (i + 1)) := by
        have h127 : v % 0x80 * 2 ^ (7 * i) ≤ 127 * 2 ^ (7 * i) :=
          Nat.mul_le_mul_right _ (by omega)
        have : (127 : Nat) * 2 ^ (7 * i) + 2 ^ (7 * i) = 2 ^ (7 * i) * 2 ^ 7 := by ring
        omega
      have hsmall : x + v % 0x80 * 2 ^ (7 * i) < 2 ^ 64 := by
        have : 2 ^ (7 * (i + 1)) ≤ 2 ^ 64 := Nat.pow_le_pow_right (by omega) (by omega)
        omega
      rw [Nat.mod_eq_of_lt hsmall]
      have hrec : v / 0x80 < 2 ^ (64 - 7 * (i + 1)) := by
        rw [Nat.div_lt_iff_lt_mul (by omega)]
        have : 2 ^ (64 - 7 * (i + 1)) * 0x80 = 2 ^ (64 - 7 * i) := by
          have : (0x80 : Nat) = 2 ^ 7 := by norm_num
          rw [this, ← pow_add]
          congr 1
          omega
        omega
      have h7 : 7 * i + 7 = 7 * (i + 1) := by ring
      rw [h7]
      rw [show ((binaryPutUvarint (v / 0x80)).append rest)
            = binaryPutUvarint (v / 0x80) ++ rest from rfl]
      rw [ih (v / 0x80) (by omega) (x + v % 0x80 * 2 ^ (7 * i)) (i + 1) rest hx' hrec
        (by omega)]
      simp only [Prod.mk.injEq]
      constructor
      · rw [hstep]
        conv_rhs => rw [← Nat.div_add_mod v 0x80]
        ring
      · push_cast
        ring

theorem binaryUvarint_put (v : Nat) (rest : List Nat) (hv : v < 2 ^ 64) :
    binaryUvarint (binaryPutUvarint v ++ rest)
      = (v, ((binaryPutUvarint v).length : Int)) := by
  have h := binaryUvarintLoop_put v 0 0 rest (by norm_num) (by norm_num; omega) (by omega)
  simp only [Nat.mul_zero, pow_zero] at h
  rw [binaryUvarint]
  rw [show (0 : Nat) = 7 * 0 by ring] at h ⊢
  rw [h]
  norm_num

theorem mod_add_0x80 (a : Nat) : (a % 0x80 + 0x80) % 0x80 = a % 0x80 := by omega

theorem contByte_not_lt (a : Nat) : ¬ (a % 0x80 + 0x80 < 0x80) := by omega

theorem unrolledDecodeUVarint_put (v : Nat) (rest : List Nat) (hv : v < 2 ^ 64) :
    unrolledDecodeUVarint (binaryPutUvarint v ++ rest)
      = (v, ((binaryPutUvarint v).length : Int)) := by
  by_cases hc1 : v < 128
  · rw [putUvarint_single (by omega)]
    simp only [List.cons_append, List.nil_append, unrolledDecodeUVarint]
    rw [if_pos (by omega)]
    simp only [Prod.mk.injEq, List.length_cons, List.length_nil]
    refine ⟨?_, ?_⟩ <;> first | trivial | omega | norm_num
  by_cases hc2 : v < 16384
  · rw [putUvarint_cons (by omega), putUvarint_single (by omega)]
    simp only [List.cons_append, List.nil_append, unrolledDecodeUVarint]
    rw [if_neg (contByte_not_lt _), if_pos (by omega)]
    simp only [and_0x7f, mod_add_0x80]
    rw [lor_shift_eq_add (v / 0x80) 7 (by omega)]
    simp only [Prod.mk.injEq, List.length_cons, List.length_nil]
    refine ⟨?_, ?_⟩ <;> first | trivial | omega | norm_num
  by_cases hc3 : v < 2097152
  · rw [putUvarint_cons (by omega), putUvarint_cons (by omega), putUvarint_single (by omega)]
    simp only [List.cons_append, List.nil_append, unrolledDecodeUVarint]
    rw [if_neg (contByte_not_lt _), if_neg (contByte_not_lt _), if_pos (by omega)]
    simp only [and_0x7f, mod_add_0x80]
    rw [lor_shift_eq_add (v / 0x80 % 0x80) 7 (by omega)]
    rw [lor_shift_eq_add (v / 0x80 / 0x80) 14 (by omega)]
    simp only [Prod.mk.injEq, List.length_cons, List.length_nil]
    refine ⟨?_, ?_⟩ <;> first | trivial | omega | norm_num
  by_cases hc4 : v < 268435456
  · rw [putUvarint_cons (by omega), putUvarint_cons (by omega), putUvarint_cons (by omega), putUvarint_single (by omega)]
    simp only [List.cons_append, List.nil_append, unrolledDecodeUVarint]
    rw [if_neg (contByte_not_lt _), if_neg (contByte_not_lt _), if_neg (contByte_not_lt _), if_pos (by omega)]
    simp only [and_0x7f, mod_add_0x80]
    rw [lor_shift_eq_add (v / 0x80 % 0x80) 7 (by omega)]
    rw [lor_shift_eq_add (v / 0x80 / 0x80 % 0x80) 14 (by omega)]
    rw [lor_shift_eq_add (v / 0x80 / 0x80 / 0x80) 21 (by omega)]
    simp only [Prod.mk.injEq, List.length_cons, List.length_nil]
    refine ⟨?_, ?_⟩ <;> first | trivial | omega | norm_num
  by_cases hc5 : v < 34359738368
  · rw [putUvarint_cons (by omega), putUvarint_cons (by omega), putUvarint_cons (by omega), putUvarint_cons (by omega), putUvarint_single (by omega)]
    simp only [List.cons_append, List.nil_append, unrolledDecodeUVarint]
    rw [if_neg (contByte_not_lt _), if_neg (contByte_not_lt _), if_neg (contByte_not_lt _), if_neg (contByte_not_lt _), if_pos (by omega)]
    simp only [and_0x7f, mod_add_0x80]
    rw [lor_shift_eq_add (v / 0x80 % 0x80) 7 (by omega)]
    rw [lor_shift_eq_add (v / 0x80 / 0x80 % 0x80) 14 (by omega)]
    rw [lor_shift_eq_add (v / 0x80 / 0x80 / 0x80 % 0x80) 21 (by omega)]
    rw [lor_shift_eq_add (v / 0x80 / 0x80 / 0x80 / 0x80) 28 (by omega)]
    simp only [Prod.mk.injEq, List.length_cons, List.length_nil]
    refine ⟨?_, ?_⟩ <;> first | trivial | omega | norm_num
  by_cases hc6 : v < 4398046511104
  · rw [putUvarint_cons (by omega), putUvarint_cons (by omega), putUvarint_cons (by omega), putUvarint_cons (by omega), putUvarint_cons (by omega), putUvarint_single (by omega)]
    simp only [List.cons_append, List.nil_append, unrolledDecodeUVarint]
    rw [if_neg (contByte_not_lt _), if_neg (contByte_not_lt _), if_neg (contByte_not_lt _), if_neg (contByte_not_lt _), if_neg (contByte_not_lt _), if_pos (by omega)]
    simp only [and_0x7f, mod_add_0x80]
    rw [lor_shift_eq_add (v / 0x80 % 0x80) 7 (by omega)]
    rw [lor_shift_eq_add (v / 0x80 / 0x80 % 0x80) 14 (by omega)]
    rw [lor_shift_eq_add (v / 0x80 / 0x80 / 0x80 % 0x80) 21 (by omega)]
    rw [lor_shift_eq_add (v / 0x80 / 0x80 / 0x80 / 0x80 % 0x80) 28 (by omega)]
    rw [lor_shift_eq_add (v / 0x80 / 0x80 / 0x80 / 0x80 / 0x80) 35 (by omega)]
    simp only [Prod.mk.injEq, List.length_cons, List.length_nil]
    refine ⟨?_, ?_⟩ <;> first | trivial | omega | norm_num
  by_cases hc7 : v < 562949953421312
  · rw [putUvarint_cons (by omega), putUvarint_cons (by omega), putUvarint_cons (by omega), putUvarint_cons (by omega), putUvarint_cons (by omega), putUvarint_cons (by omega), putUvarint_single (by omega)]
    simp only [List.cons_append, List.nil_append, unrolledDecodeUVarint]
    rw [if_neg (contByte_not_lt _), if_neg (contByte_not_lt _), if_neg (contByte_not_lt _), if_neg (contByte_not_lt _), if_neg (contByte_not_lt _), if_neg (contByte_not_lt _), if_pos (by omega)]
    simp only [and_0x7f, mod_add_0x80]
    rw [lor_shift_eq_add (v / 0x80 % 0x80) 7 (by omega)]
    rw [lor_shift_eq_add (v / 0x80 / 0x80 % 0x80) 14 (by omega)]
    rw [lor_shift_eq_add (v / 0x80 / 0x80 / 0x80 % 0x80) 21 (by omega)]
    rw [lor_shift_eq_add (v / 0x80 / 0x80 / 0x80 / 0x80 % 0x80) 28 (by omega)]
    rw [lor_shift_eq_add (v / 0x80 / 0x80 / 0x80 / 0x80 / 0x80 % 0x80) 35 (by omega)]
    rw [lor_shift_eq_add (v / 0x80 / 0x80 / 0x80 / 0x80 / 0x80 / 0x80) 42 (by omega)]
    simp only [Prod.mk.injEq, List.length_cons, List.length_nil]
    refine ⟨?_, ?_⟩ <;> first | trivial | omega | norm_num
  by_cases hc8 : v < 72057594037927936
  · rw [putUvarint_cons (by omega), putUvarint_cons (by omega), putUvarint_cons (by omega), putUvarint_cons (by omega), putUvarint_cons (by omega), putUvarint_cons (by omega), putUvarint_cons (by omega), putUvarint_single (by omega)]
    simp only [List.cons_append, List.nil_append, unrolledDecodeUVarint]
    rw [if_neg (contByte_not_lt _), if_neg (contByte_not_lt _), if_neg (contByte_not_lt _), if_neg (contByte_not_lt _), if_neg (contByte_not_lt _), if_neg (contByte_not_lt _), if_neg (contByte_not_lt _), if_pos (by omega)]
    simp only [and_0x7f, mod_add_0x80]
    rw [lor_shift_eq_add (v / 0x80 % 0x80) 7 (by omega)]
    rw [lor_shift_eq_add (v / 0x80 / 0x80 % 0x80) 14 (by omega)]
    rw [lor_shift_eq_add (v / 0x80 / 0x80 / 0x80 % 0x80) 21 (by omega)]
    rw [lor_shift_eq_add (v / 0x80 / 0x80 / 0x80 / 0x80 % 0x80) 28 (by omega)]
    rw [lor_shift_eq_add (v / 0x80 / 0x80 / 0x80 / 0x80 / 0x80 % 0x80) 35 (by omega)]
    rw [lor_shift_eq_add (v / 0x80 / 0x80 / 0x80 / 0x80 / 0x80 / 0x80 % 0x80) 42 (by omega)]
    rw [lor_shift_eq_add (v / 0x80 / 0x80 / 0x80 / 0x80 / 0x80 / 0x80 / 0x80) 49 (by omega)]
    simp only [Prod.mk.injEq, List.length_cons, List.length_nil]
    refine ⟨?_, ?_⟩ <;> first | trivial | omega | norm_num
  by_cases hc9 : v < 9223372036854775808
  · rw [putUvarint_cons (by omega), putUvarint_cons (by omega), putUvarint_cons (by omega), putUvarint_cons (by omega), putUvarint_cons (by omega), putUvarint_cons (by omega), putUvarint_cons (by omega), putUvarint_cons (by omega), putUvarint_single (by omega)]
    simp only [List.cons_append, List.nil_append, unrolledDecodeUVarint]
    rw [if_neg (contByte_not_lt _), if_neg (contByte_not_lt _), if_neg (contByte_not_lt _), if_neg (contByte_not_lt _), if_neg (contByte_not_lt _), if_neg (contByte_not_lt _), if_neg (contByte_not_lt _), if_neg (contByte_not_lt _), if_pos (by omega)]
    simp only [and_0x7f, mod_add_0x80]
    rw [lor_shift_eq_add (v / 0x80 % 0x80) 7 (by omega)]
    rw [lor_shift_eq_add (v / 0x80 / 0x80 % 0x80) 14 (by omega)]
    rw [lor_shift_eq_add (v / 0x80 / 0x80 / 0x80 % 0x80) 21 (by omega)]
    rw [lor_shift_eq_add (v / 0x80 / 0x80 / 0x80 / 0x80 % 0x80) 28 (by omega)]
    rw [lor_shift_eq_add (v / 0x80 / 0x80 / 0x80 / 0x80 / 0x80 % 0x80) 35 (by omega)]
    rw [lor_shift_eq_add (v / 0x80 / 0x80 / 0x80 / 0x80 / 0x80 / 0x80 % 0x80) 42 (by omega)]
    rw [lor_shift_eq_add (v / 0x80 / 0x80 / 0x80 / 0x80 / 0x80 / 0x80 / 0x80 % 0x80) 49 (by omega)]
    rw [lor_shift_eq_add (v / 0x80 / 0x80 / 0x80 / 0x80 / 0x80 / 0x80 / 0x80 / 0x80) 56 (by omega)]
    simp only [Prod.mk.injEq, List.length_cons, List.length_nil]
    refine ⟨?_, ?_⟩ <;> first | trivial | omega | norm_num
  rw [putUvarint_cons (by omega), putUvarint_cons (by omega), putUvarint_cons (by omega), putUvarint_cons (by omega), putUvarint_cons (by omega), putUvarint_cons (by omega), putUvarint_cons (by omega), putUvarint_cons (by omega), putUvarint_cons (by omega), putUvarint_single (by omega)]
  simp only [List.cons_append, List.nil_append, unrolledDecodeUVarint]
  rw [if_neg (contByte_not_lt _), if_neg (contByte_not_lt _), if_neg (contByte_not_lt _), if_neg (contByte_not_lt _), if_neg (contByte_not_lt _), if_neg (contByte_not_lt _), if_neg (contByte_not_lt _), if_neg (contByte_not_lt _), if_neg (contByte_not_lt _), if_pos (by omega)]
  simp only [and_0x7f, mod_add_0x80]
  rw [lor_shift_eq_add (v / 0x80 % 0x80) 7 (by omega)]
  rw [lor_shift_eq_add (v / 0x80 / 0x80 % 0x80) 14 (by omega)]
  rw [lor_shift_eq_add (v / 0x80 / 0x80 / 0x80 % 0x80) 21 (by omega)]
  rw [lor_shift_eq_add (v / 0x80 / 0x80 / 0x80 / 0x80 % 0x80) 28 (by omega)]
  rw [lor_shift_eq_add (v / 0x80 / 0x80 / 0x80 / 0x80 / 0x80 % 0x80) 35 (by omega)]
  rw [lor_shift_eq_add (v / 0x80 / 0x80 / 0x80 / 0x80 / 0x80 / 0x80 % 0x80) 42 (by omega)]
  rw [lor_shift_eq_add (v / 0x80 / 0x80 / 0x80 / 0x80 / 0x80 / 0x80 / 0x80 % 0x80) 49 (by omega)]
  rw [lor_shift_eq_add (v / 0x80 / 0x80 / 0x80 / 0x80 / 0x80 / 0x80 / 0x80 / 0x80 % 0x80) 56 (by omega)]
  rw [lor_shift_eq_add (v / 0x80 / 0x80 / 0x80 / 0x80 / 0x80 / 0x80 / 0x80 / 0x80 / 0x80) 63 (by omega)]
  simp only [Prod.mk.injEq, List.length_cons, List.length_nil]
  refine ⟨?_, ?_⟩ <;> first | trivial | omega | norm_num

/-- The `uint64` zig-zag argument passed to `PutUvarint` by `binaryPutVarint`. -/
theorem putVarint_arg (x : Int) (h1 : -2 ^ 63 ≤ x) (h2 : x < 2 ^ 63) :
    binaryPutVarint x
      = binaryPutUvarint (if 0 ≤ x then (2 * x).toNat else (2 * (-x) - 1).toNat) := by
  rw [binaryPutVarint]
  congr 1
  split
  · next hneg =>
    rw [if_neg (by omega)]
    omega
  · next hpos =>
    rw [if_pos (by omega)]
    omega

theorem zigzag_bound (x : Int) (h1 : -2 ^ 63 ≤ x) (h2 : x < 2 ^ 63) :
    (if 0 ≤ x then (2 * x).toNat else (2 * (-x) - 1).toNat) < 2 ^ 64 := by
  split <;> omega

theorem unzigzag_eq (x : Int) (h1 : -2 ^ 63 ≤ x) (h2 : x < 2 ^ 63) :
    (let u := if 0 ≤ x then (2 * x).toNat else (2 * (-x) - 1).toNat
     if u &&& 1 ≠ 0 then -((u >>> 1 : Nat) : Int) - 1 else ((u >>> 1 : Nat) : Int)) = x := by
  simp only [Nat.and_one_is_mod, Nat.shiftRight_eq_div_pow, pow_one]
  split
  · next h =>
    rw [if_neg (by omega)]
    omega
  · next h =>
    rw [if_pos (by omega)]
    omega

theorem binaryVarint_put (x : Int) (rest : List Nat) (h1 : -2 ^ 63 ≤ x)
    (h2 : x < 2 ^ 63) :
    binaryVarint (binaryPutVarint x ++ rest) = (x, ((binaryPutVarint x).length : Int)) := by
  rw [putVarint_arg x h1 h2, binaryVarint,
    binaryUvarint_put _ rest (zigzag_bound x h1 h2)]
  have h := unzigzag_eq x h1 h2
  simp only at h ⊢
  rw [h]

theorem unrolledDecodeVarint_put (x : Int) (rest : List Nat) (h1 : -2 ^ 63 ≤ x)
    (h2 : x < 2 ^ 63) :
    unrolledDecodeVarint (binaryPutVarint x ++ rest)
      = (x, ((binaryPutVarint x).length : Int)) := by
  rw [putVarint_arg x h1 h2, unrolledDecodeVarint,
    unrolledDecodeUVarint_put _ rest (zigzag_bound x h1 h2)]
  have h := unzigzag_eq x h1 h2
  simp only at h ⊢
  rw [h]

theorem putUvarint_length_pos (v : Nat) : 1 ≤ (binaryPutUvarint v).length := by
  by_cases h : v < 0x80
  · rw [putUvarint_single h]
    simp
  · rw [putUvarint_cons h]
    simp

/-- The encoding length of `PutUvarint` is minimal: it fits in `k` bytes exactly
when the value fits in `7 * k` payload bits. -/
theorem putUvarint_length_le (k : Nat) :
    ∀ v : Nat, (binaryPutUvarint v).length ≤ k + 1 ↔ v < 128 ^ (k + 1) := by
  induction k with
  | zero =>
    intro v
    by_cases h : v < 0x80
    · rw [putUvarint_single h]
      simpa using h
    · rw [putUvarint_cons h]
      have := putUvarint_length_pos (v / 0x80)
      simp only [List.length_cons, pow_one]
      omega
  | succ k ih =>
    intro v
    by_cases h : v < 0x80
    · rw [putUvarint_single h]
      have h128 : (128 : Nat) ≤ 128 ^ (k + 1 + 1) := Nat.le_self_pow (by omega) 128
      simp only [List.length_singleton]
      omega
    · rw [putUvarint_cons h]
      simp only [List.length_cons]
      have hiff := ih (v / 0x80)
      have hpow : 128 ^ (k + 1) * 128 = 128 ^ (k + 1 + 1) := by
        rw [← pow_succ]
      constructor
      · intro hlen
        have : v / 0x80 < 128 ^ (k + 1) := hiff.mp (by omega)
        omega
      · intro hv
        have : v / 0x80 < 128 ^ (k + 1) := by omega
        have := hiff.mpr this
        omega

/-! ## Float codec: the repository's `writeFloat` / `readFloat`
(`Format_7_18`), exercised by `TestCodecWriteFloat` / `TestCodecReadFloat`. -/

/-- Modelled from the spec: `writeFloat`, whose body is not under `src/` (only
its tests are).  A finite float is its normalized dyadic pair
`(mantissa, exponent)` — `value = mantissa * 2^exponent`, mantissa the smallest
odd integer (or zero, with exponent zero) — and is written as two signed
varints: zig-zagged mantissa, then zig-zagged exponent; `0` becomes the two
zero bytes `[0, 0]`. -/
def writeFloat (mant expo : Int) : List Nat :=
  binaryPutVarint mant ++ binaryPutVarint expo

/-- Modelled from the spec: `readFloat` — read two signed varints (mantissa,
then exponent) through the unrolled fast path, advancing the reader offset by
each consumed byte count; returns the dyadic pair and the final offset. -/
def readFloat (buf : List Nat) : (Int × Int) × Nat :=
  let p1 := unrolledDecodeVarint buf
  let p2 := unrolledDecodeVarint (buf.drop p1.2.toNat)
  ((p1.1, p2.1), p1.2.toNat + p2.2.toNat)

/-- The exact finite value denoted by a dyadic pair. -/
def dyadicVal (mant expo : Int) : ℚ :=
  (mant : ℚ) * (2 : ℚ) ^ expo

/-- Normal form of a finite float's dyadic pair: odd mantissa, or the zero
pair.  Distinct finite doubles have distinct normal pairs, so pair equality is
bit-for-bit float equality. -/
def dyadicNormal (mant expo : Int) : Prop :=
  mant % 2 = 1 ∨ (mant = 0 ∧ expo = 0)

theorem readFloat_writeFloat (m e : Int)
    (hm1 : -2 ^ 63 ≤ m) (hm2 : m < 2 ^ 63) (he1 : -2 ^ 63 ≤ e) (he2 : e < 2 ^ 63) :
    readFloat (writeFloat m e) = ((m, e), (writeFloat m e).length) := by
  rw [readFloat, writeFloat]
  have h1 := unrolledDecodeVarint_put m (binaryPutVarint e) hm1 hm2
  have h2 := unrolledDecodeVarint_put e [] he1 he2
  rw [List.append_nil] at h2
  simp only [h1, Int.toNat_natCast, List.drop_left, h2, List.length_append]

theorem dyadic_unique_le (m e mq eq : Int) (hm : m % 2 = 1) (hmq : mq % 2 = 1)
    (hle : e ≤ eq) (heq : dyadicVal m e = dyadicVal mq eq) : m = mq ∧ e = eq := by
  have h2 : (2 : ℚ) ≠ 0 := two_ne_zero
  have h3 : (m : ℚ) = (mq : ℚ) * (2 : ℚ) ^ (eq - e) := by
    have h4 : (m : ℚ) * (2 : ℚ) ^ e * (2 : ℚ) ^ (-e)
        = (mq : ℚ) * (2 : ℚ) ^ eq * (2 : ℚ) ^ (-e) := by
      rw [dyadicVal, dyadicVal] at heq
      rw [heq]
    rw [mul_assoc, mul_assoc, ← zpow_add₀ h2, ← zpow_add₀ h2] at h4
    simpa [sub_eq_add_neg] using h4
  have hkeq : eq - e = (((eq - e).toNat : Nat) : Int) := by omega
  rw [hkeq, zpow_natCast] at h3
  have h5 : m = mq * 2 ^ (eq - e).toNat := by exact_mod_cast h3
  rcases Nat.eq_zero_or_pos (eq - e).toNat with hk0 | hkpos
  · rw [hk0, pow_zero, mul_one] at h5
    exact ⟨h5, by omega⟩
  · exfalso
    have hdvd : (2 : Int) ∣ m := by
      rw [h5]
      exact Dvd.dvd.mul_left (dvd_pow_self 2 (by omega : (eq - e).toNat ≠ 0)) mq
    omega

theorem dyadic_unique (m e mq eq : Int) (hn : dyadicNormal m e) (hnq : dyadicNormal mq eq)
    (heq : dyadicVal m e = dyadicVal mq eq) : m = mq ∧ e = eq := by
  have h2 : (2 : ℚ) ^ e ≠ 0 := zpow_ne_zero e two_ne_zero
  have h2q : (2 : ℚ) ^ eq ≠ 0 := zpow_ne_zero eq two_ne_zero
  rcases hn with hm | ⟨hm0, he0⟩
  · rcases hnq with hmq | ⟨hmq0, heq0⟩
    · rcases le_total e eq with hle | hle
      · exact dyadic_unique_le m e mq eq hm hmq hle heq
      · have h := dyadic_unique_le mq eq m e hmq hm hle heq.symm
        exact ⟨h.1.symm, h.2.symm⟩
    · exfalso
      subst hmq0
      rw [dyadicVal, dyadicVal] at heq
      simp only [Int.cast_zero, zero_mul] at heq
      rcases mul_eq_zero.mp heq with hq | hq
      · have hz : m = 0 := by exact_mod_cast hq
        omega
      · exact h2 hq
  · subst hm0
    subst he0
    rw [dyadicVal, dyadicVal] at heq
    simp only [Int.cast_zero, zero_mul] at heq
    rcases hnq with hmq | ⟨hmq0, heq0⟩
    · exfalso
      rcases mul_eq_zero.mp heq.symm with hq | hq
      · have hz : mq = 0 := by exact_mod_cast hq
        omega
      · exact h2q hq
    · exact ⟨hmq0.symm, heq0.symm⟩

/-! ## Remote (S3) table reader: `s3TableReader` (`newS3TableReader`, `ReadAt`,
`readRange`, `isConnReset`). -/

/-- A Go error value, to the depth `isConnReset` inspects it: a `*net.OpError`
wrapping a `*os.SyscallError` holding an errno, or the other error values the
read path can produce (`io.ErrUnexpectedEOF` from a short body, `io.EOF`,
anything else). -/
inductive GoError where
  | opError (inner : GoError)
  | syscallError (errno : Nat)
  | unexpectedEOF
  | eof
  | other (msg : String)
deriving DecidableEq

/-- `unix.ECONNRESET`. -/
def ECONNRESET : Nat := 104

/-- The "connection reset by peer" error shape. -/
def connResetErr : GoError := .opError (.syscallError ECONNRESET)

/-- `isConnReset`: the error is a `*net.OpError` whose inner error is a
`*os.SyscallError` carrying `unix.ECONNRESET`; anything else (including no
error) is not a reset. -/
def isConnReset : Option GoError → Bool
  | some (.opError (.syscallError e)) => e == ECONNRESET
  | _ => false

/-- Observable effects of a `readRange` call, in order: gate slot
acquire/release, the `GetObject` request (with its range header), the retry
log line, and the retry sleep (durations in nanoseconds). -/
inductive S3Event where
  | acquire
  | release
  | request (rangeHeader : String)
  | logRetry (durNs : Nat)
  | sleep (durNs : Nat)
deriving DecidableEq

def S3Event.isGate : S3Event → Bool
  | .acquire => true
  | .release => true
  | _ => false

def S3Event.isGateOrRequest : S3Event → Bool
  | .acquire => true
  | .release => true
  | .request _ => true
  | _ => false

def S3Event.isRequest : S3Event → Bool
  | .request _ => true
  | _ => false

def S3Event.isRetryStep : S3Event → Bool
  | .logRetry _ => true
  | .sleep _ => true
  | _ => false

/-- The scripted outcome of one `GetObject`-plus-body-read attempt: either
`GetObject` returns an error, or it succeeds with a declared content length
and `io.ReadFull` on the body returns `(n, err)`. -/
inductive S3Response where
  | getErr (e : GoError)
  | ok (contentLength : Int) (n : Nat) (err : Option GoError)
deriving DecidableEq

/-- A `d.PanicIfError` / `d.PanicIfFalse` abort — fatal, never retried — or the
response script running out while the read is still retrying (standing in for
an unbounded retry sequence). -/
inductive Fault where
  | panicGetObject (e : GoError)
  | panicContentLength
  | panicShortBootstrap
  | panicCountMismatch
  | scriptExhausted
deriving DecidableEq

/-- The `read` closure inside `readRange`: when a gate is configured, acquire
one slot first and release it via `defer` on every exit (return or panic);
issue `GetObject`; `d.PanicIfError` on its error; `d.PanicIfFalse` unless the
declared content length equals `len(p)`; otherwise return `io.ReadFull`'s
`(n, err)`. -/
def readAttempt (gate : Bool) (rangeHeader : String) (bufLen : Nat) (resp : S3Response) :
    Except Fault (Nat × Option GoError) × List S3Event :=
  let enter := (if gate then [S3Event.acquire] else []) ++ [S3Event.request rangeHeader]
  let leave := if gate then [S3Event.release] else []
  match resp with
  | .getErr e => (.error (.panicGetObject e), enter ++ leave)
  | .ok contentLength n err =>
    if contentLength ≠ (bufLen : Int) then (.error .panicContentLength, enter ++ leave)
    else (.ok (n, err), enter ++ leave)

/-- `readRange`'s backoff configuration: `Min: 128 * time.Microsecond`, in
nanoseconds. -/
def s3backoffMinNs : Nat := 128000

/-- `readRange`'s backoff configuration: `Max: 1024 * time.Millisecond`, in
nanoseconds. -/
def s3backoffMaxNs : Nat := 1024000000

/-- Modelled from the spec: one `Duration()` call of the third-party backoff
value configured in `readRange` (`Min` 128 µs, `Max` 1024 ms, `Factor` 2,
`Jitter` true) — the exponential target `min * 2^attempt` doubles per attempt,
random jitter draws the delay between `min` and the target (the stream `jit`
supplies the draw, taken in thousandths), and the result is capped at `max`. -/
def backoffDuration (jit : Nat → Nat) (attempt : Nat) : Nat :=
  let target := s3backoffMinNs * 2 ^ attempt
  let jittered := s3backoffMinNs + jit attempt % 1000 * (target - s3backoffMinNs) / 1000
  min jittered s3backoffMaxNs

/-- The retry loop of `readRange`: while the attempt's returned error is a
connection reset, compute the next backoff duration, log it, sleep, and call
`read` again; the backoff attempt counter advances by one per `Duration()`
call.  One scripted response is consumed per attempt. -/
def readRangeRetry (gate : Bool) (rangeHeader : String) (bufLen : Nat) (jit : Nat → Nat) :
    Nat → List S3Response → Except Fault (Nat × Option GoError) × List S3Event
  | _, [] => (.error .scriptExhausted, [])
  | attempt, r :: rest =>
    let a := readAttempt gate rangeHeader bufLen r
    let dur := backoffDuration jit attempt
    let evs := S3Event.logRetry dur :: S3Event.sleep dur :: a.2
    match a.1 with
    | .error f => (.error f, evs)
    | .ok body =>
      if isConnReset body.2 then
        let next := readRangeRetry gate rangeHeader bufLen jit (attempt + 1) rest
        (next.1, evs ++ next.2)
      else (.ok body, evs)

/-- `readRange`: one `read` attempt; if and only if its returned error is a
connection reset, enter the backoff retry loop (a panic propagates as is, any
other error is returned as is). -/
def readRange (gate : Bool) (rangeHeader : String) (bufLen : Nat) (jit : Nat → Nat) :
    List S3Response → Except Fault (Nat × Option GoError) × List S3Event
  | [] => (.error .scriptExhausted, [])
  | r :: rest =>
    let a := readAttempt gate rangeHeader bufLen r
    match a.1 with
    | .error f => (.error f, a.2)
    | .ok body =>
      if isConnReset body.2 then
        let next := readRangeRetry gate rangeHeader bufLen jit 0 rest
        (next.1, a.2 ++ next.2)
      else (.ok body, a.2)

/-- `ReadAt`'s range header: `end := off + int64(len(p)) - 1`, formatted
`bytes=<off>-<end>` (the HTTP range header is inclusive). -/
def readAtHeader (off : Int) (plen : Nat) : String :=
  "bytes=" ++ toString off ++ "-" ++ toString (off + (plen : Int) - 1)

/-- `ReadAt` forwards to `readRange` with the inclusive range header. -/
def s3ReadAt (gate : Bool) (off : Int) (plen : Nat) (jit : Nat → Nat)
    (script : List S3Response) : Except Fault (Nat × Option GoError) × List S3Event :=
  readRange gate (readAtHeader off plen) plen jit script

/-- The canonical trace of the retry loop, starting at backoff attempt `a` and
running for the given number of iterations: per iteration, the retry log line
with the computed duration, the sleep with that same duration, then the next
attempt's request. -/
def retryTraceFrom (hd : String) (jit : Nat → Nat) : Nat → Nat → List S3Event
  | _, 0 => []
  | a, Nat.succ j =>
    S3Event.logRetry (backoffDuration jit a) :: S3Event.sleep (backoffDuration jit a) ::
      S3Event.request hd :: retryTraceFrom hd jit (a + 1) j

/-- The canonical non-gate trace of a `readRange` that suffers `k` connection
resets then completes: the initial request, then `k` logged-and-slept retries
with the backoff durations for attempts `0, …, k-1`. -/
def retryTrace (hd : String) (jit : Nat → Nat) (k : Nat) : List S3Event :=
  S3Event.request hd :: retryTraceFrom hd jit 0 k

/-- `newS3TableReader`'s bootstrap range header: a suffix read of the last
`size` bytes — `fmt.Sprintf("%s=-%d", s3RangePrefix, size)`. -/
def tailRangeHeader (size : Nat) : String := "bytes=-" ++ toString size

/-- Construction-level effects: a ranged read records the object key (the
table hash) with its range header and requested byte count; plus cache puts. -/
inductive ConstructEvent where
  | rangedRead (key : String) (rangeHeader : String) (requested : Nat)
  | cachePut
deriving DecidableEq

/-- `newS3TableReader` over an abstract table-index type `TI`: consult the
cache (when one was supplied) for the table hash `h`; on a miss, issue one
ranged read of the last `indexSize chunkCount + footerSize` bytes of the
object named `h`, `d.PanicIfFalse` unless exactly that many bytes arrive,
parse them, and put the parsed index into the supplied cache; finally
`d.PanicIfFalse` unless the obtained index's chunk count equals the
caller-supplied `chunkCount`.  `indexSize`, `footerSize`, `parseTableIndex`
and `count` live in table-file code outside `src/` and are taken as opaque
parameters; `net` serves the body of a completed ranged read; `cache = none`
models a nil cache, `cache = some c` a supplied cache whose entry for `h` is
`c`.  Returns the index (or the fault), the events, and the cache
afterwards. -/
def newS3TableReader (TI : Type) (indexSize : Nat → Nat) (footerSize : Nat)
    (parseTableIndex : List Nat → TI) (count : TI → Nat) (net : String → List Nat)
    (h : String) (chunkCount : Nat) (cache : Option (Option TI)) :
    Except Fault TI × List ConstructEvent × Option (Option TI) :=
  let cached : Option TI := match cache with
    | none => none
    | some c => c
  match cached with
  | some index =>
    if count index = chunkCount then (.ok index, [], cache)
    else (.error .panicCountMismatch, [], cache)
  | none =>
    let size := indexSize chunkCount + footerSize
    let body := net (tailRangeHeader size)
    let evs := [ConstructEvent.rangedRead h (tailRangeHeader size) size]
    if body.length ≠ size then (.error .panicShortBootstrap, evs, cache)
    else
      let index := parseTableIndex body
      let evs2 := match cache with
        | none => evs
        | some _ => evs ++ [ConstructEvent.cachePut]
      let cache2 : Option (Option TI) := match cache with
        | none => none
        | some _ => some (some index)
      if count index = chunkCount then (.ok index, evs2, cache2)
      else (.error .panicCountMismatch, evs2, cache2)

/-! ## SQL table adaptor (`tables.go`): `tableEditor.Update` -/

/-- `tableEditor.Update` with keys and values as `Nat`: `table` is the
persisted table consulted by `GetRow`, `ed` the pending map editor's effect as
a key → value map.  When the primary key changes, a row with the new key
already in the table is a "primary key collision" error; otherwise only
`Remove(oldKey)` is applied to the editor.  When the key is unchanged,
`Set(oldKey, newVal)` is applied. -/
def tableEditorUpdate (table : Nat → Bool) (ed : Nat → Option Nat)
    (oldKey newKey newVal : Nat) : Except String (Nat → Option Nat) :=
  if oldKey ≠ newKey then
    if table newKey then .error "primary key collision"
    else .ok (fun k => if k = oldKey then none else ed k)
  else .ok (fun k => if k = oldKey then some newVal else ed k)

/-! ### Reader trace lemmas -/

theorem connReset_true : isConnReset (some connResetErr) = true := rfl

theorem readAttempt_events (gate : Bool) (hd : String) (bufLen : Nat) (r : S3Response) :
    (readAttempt gate hd bufLen r).2
      = ((if gate then [S3Event.acquire] else []) ++ [S3Event.request hd])
        ++ (if gate then [S3Event.release] else []) := by
  cases r with
  | getErr e => rfl
  | ok cl n err =>
    simp only [readAttempt]
    split <;> rfl

theorem readAttempt_filter_nonGate (gate : Bool) (hd : String) (bufLen : Nat)
    (r : S3Response) :
    (readAttempt gate hd bufLen r).2.filter (fun e => !e.isGate) = [S3Event.request hd] := by
  rw [readAttempt_events]
  cases gate <;> rfl

theorem readAttempt_filter_gateReq (hd : String) (bufLen : Nat) (r : S3Response) :
    (readAttempt true hd bufLen r).2.filter S3Event.isGateOrRequest
      = [S3Event.acquire, S3Event.request hd, S3Event.release] := by
  rw [readAttempt_events]
  rfl

theorem readAttempt_filter_request (gate : Bool) (hd : String) (bufLen : Nat)
    (r : S3Response) :
    (readAttempt gate hd bufLen r).2.filter S3Event.isRequest = [S3Event.request hd] := by
  rw [readAttempt_events]
  cases gate <;> rfl

theorem readAttempt_filter_retryStep (gate : Bool) (hd : String) (bufLen : Nat)
    (r : S3Response) :
    (readAttempt gate hd bufLen r).2.filter S3Event.isRetryStep = [] := by
  rw [readAttempt_events]
  cases gate <;> rfl

theorem readAttempt_ok (gate : Bool) (hd : String) (bufLen n : Nat)
    (err : Option GoError) :
    (readAttempt gate hd bufLen (.ok (bufLen : Int) n err)).1 = .ok (n, err) := by
  simp [readAttempt]

theorem readAttempt_badLength (gate : Bool) (hd : String) (bufLen n : Nat) (cl : Int)
    (err : Option GoError) (hcl : cl ≠ (bufLen : Int)) :
    (readAttempt gate hd bufLen (.ok cl n err)).1 = .error .panicContentLength := by
  simp [readAttempt, hcl]

theorem filterNG_logRetry (d : Nat) (l : List S3Event) :
    (S3Event.logRetry d :: l).filter (fun e => !e.isGate)
      = S3Event.logRetry d :: l.filter (fun e => !e.isGate) := rfl

theorem filterNG_sleep (d : Nat) (l : List S3Event) :
    (S3Event.sleep d :: l).filter (fun e => !e.isGate)
      = S3Event.sleep d :: l.filter (fun e => !e.isGate) := rfl

theorem readRangeRetry_run (gate : Bool) (hd : String) (bufLen : Nat) (jit : Nat → Nat)
    (n0 nFin : Nat) (errFin : Option GoError) (hfin : isConnReset errFin = false) :
    ∀ (j a : Nat),
    (readRangeRetry gate hd bufLen jit a
        (List.replicate j (S3Response.ok (bufLen : Int) n0 (some connResetErr))
          ++ [S3Response.ok (bufLen : Int) nFin errFin])).1 = .ok (nFin, errFin)
    ∧ (readRangeRetry gate hd bufLen jit a
        (List.replicate j (S3Response.ok (bufLen : Int) n0 (some connResetErr))
          ++ [S3Response.ok (bufLen : Int) nFin errFin])).2.filter (fun e => !e.isGate)
        = retryTraceFrom hd jit a (j + 1) := by
  intro j
  induction j with
  | zero =>
    intro a
    simp only [List.replicate, List.nil_append, readRangeRetry]
    rw [readAttempt_ok]
    simp only [hfin, Bool.false_eq_true, if_false]
    refine ⟨trivial, ?_⟩
    simp only [filterNG_logRetry, filterNG_sleep, readAttempt_filter_nonGate]
    rfl
  | succ j ih =>
    intro a
    simp only [List.replicate, List.cons_append, readRangeRetry]
    rw [readAttempt_ok]
    simp only [connReset_true, if_true]
    have h1 := (ih (a + 1)).1
    have h2 := (ih (a + 1)).2
    refine ⟨h1, ?_⟩
    simp only [List.append_eq, List.filter_append, filterNG_logRetry, filterNG_sleep,
      readAttempt_filter_nonGate, h2, List.singleton_append]
    rfl

theorem readRange_run (gate : Bool) (hd : String) (bufLen : Nat) (jit : Nat → Nat)
    (n0 nFin : Nat) (errFin : Option GoError) (hfin : isConnReset errFin = false)
    (k : Nat) :
    (readRange gate hd bufLen jit
        (List.replicate k (S3Response.ok (bufLen : Int) n0 (some connResetErr))
          ++ [S3Response.ok (bufLen : Int) nFin errFin])).1 = .ok (nFin, errFin)
    ∧ (readRange gate hd bufLen jit
        (List.replicate k (S3Response.ok (bufLen : Int) n0 (some connResetErr))
          ++ [S3Response.ok (bufLen : Int) nFin errFin])).2.filter (fun e => !e.isGate)
        = retryTrace hd jit k := by
  cases k with
  | zero =>
    simp only [List.replicate, List.nil_append, readRange]
    rw [readAttempt_ok]
    simp only [hfin, Bool.false_eq_true, if_false]
    refine ⟨trivial, ?_⟩
    rw [readAttempt_filter_nonGate]
    rfl
  | succ k =>
    simp only [List.replicate, List.cons_append, readRange]
    rw [readAttempt_ok]
    simp only [connReset_true, if_true]
    have h1 := (readRangeRetry_run gate hd bufLen jit n0 nFin errFin hfin k 0).1
    have h2 := (readRangeRetry_run gate hd bufLen jit n0 nFin errFin hfin k 0).2
    refine ⟨h1, ?_⟩
    simp only [List.append_eq, List.filter_append, readAttempt_filter_nonGate, h2,
      List.singleton_append]
    rfl

theorem backoffDuration_bounds (jit : Nat → Nat) (i : Nat) :
    s3backoffMinNs ≤ backoffDuration jit i
    ∧ backoffDuration jit i ≤ s3backoffMinNs * 2 ^ i
    ∧ backoffDuration jit i ≤ s3backoffMaxNs := by
  have hpos : 1 ≤ 2 ^ i := Nat.one_le_two_pow
  have htarget : s3backoffMinNs ≤ s3backoffMinNs * 2 ^ i := by
    calc s3backoffMinNs = s3backoffMinNs * 1 := by ring
    _ ≤ s3backoffMinNs * 2 ^ i := Nat.mul_le_mul_left _ hpos
  have hjit : jit i % 1000 * (s3backoffMinNs * 2 ^ i - s3backoffMinNs) / 1000
      ≤ s3backoffMinNs * 2 ^ i - s3backoffMinNs := by
    have hmul : jit i % 1000 * (s3backoffMinNs * 2 ^ i - s3backoffMinNs)
        ≤ 1000 * (s3backoffMinNs * 2 ^ i - s3backoffMinNs) :=
      Nat.mul_le_mul_right _ (by omega)
    have hdiv := Nat.div_le_div_right (c := 1000) hmul
    rwa [Nat.mul_div_cancel_left _ (by norm_num)] at hdiv
  refine ⟨?_, ?_, ?_⟩
  · rw [backoffDuration]
    have : s3backoffMinNs ≤ s3backoffMaxNs := by norm_num [s3backoffMinNs, s3backoffMaxNs]
    omega
  · rw [backoffDuration]
    omega
  · rw [backoffDuration]
    omega

theorem filterGR_logRetry (d : Nat) (l : List S3Event) :
    (S3Event.logRetry d :: l).filter S3Event.isGateOrRequest
      = l.filter S3Event.isGateOrRequest := rfl

theorem filterGR_sleep (d : Nat) (l : List S3Event) :
    (S3Event.sleep d :: l).filter S3Event.isGateOrRequest
      = l.filter S3Event.isGateOrRequest := rfl

theorem filterReq_logRetry (d : Nat) (l : List S3Event) :
    (S3Event.logRetry d :: l).filter S3Event.isRequest = l.filter S3Event.isRequest := rfl

theorem filterReq_sleep (d : Nat) (l : List S3Event) :
    (S3Event.sleep d :: l).filter S3Event.isRequest = l.filter S3Event.isRequest := rfl

theorem readRangeRetry_gateBlocks (hd : String) (bufLen : Nat) (jit : Nat → Nat) :
    ∀ (script : List S3Response) (a : Nat), ∃ m,
    (readRangeRetry true hd bufLen jit a script).2.filter S3Event.isGateOrRequest
      = List.flatten (List.replicate m [S3Event.acquire, S3Event.request hd, S3Event.release]) := by
  intro script
  induction script with
  | nil =>
    intro a
    exact ⟨0, rfl⟩
  | cons r rest ih =>
    intro a
    simp only [readRangeRetry]
    cases ha : (readAttempt true hd bufLen r).1 with
    | error f =>
      refine ⟨1, ?_⟩
      simp [filterGR_logRetry, filterGR_sleep, readAttempt_filter_gateReq]
    | ok body =>
      simp only []
      by_cases hr : isConnReset body.2 = true
      · rw [if_pos hr]
        obtain ⟨m, hm⟩ := ih (a + 1)
        refine ⟨m + 1, ?_⟩
        simp [List.filter_append, filterGR_logRetry, filterGR_sleep,
          readAttempt_filter_gateReq, hm, List.replicate_succ]
      · rw [if_neg hr]
        refine ⟨1, ?_⟩
        simp [filterGR_logRetry, filterGR_sleep, readAttempt_filter_gateReq]

theorem readRange_gateBlocks (hd : String) (bufLen : Nat) (jit : Nat → Nat)
    (script : List S3Response) : ∃ m,
    (readRange true hd bufLen jit script).2.filter S3Event.isGateOrRequest
      = List.flatten (List.replicate m [S3Event.acquire, S3Event.request hd, S3Event.release]) := by
  cases script with
  | nil => exact ⟨0, rfl⟩
  | cons r rest =>
    simp only [readRange]
    cases ha : (readAttempt true hd bufLen r).1 with
    | error f =>
      refine ⟨1, ?_⟩
      simp [readAttempt_filter_gateReq]
    | ok body =>
      simp only []
      by_cases hr : isConnReset body.2 = true
      · rw [if_pos hr]
        obtain ⟨m, hm⟩ := readRangeRetry_gateBlocks hd bufLen jit rest 0
        refine ⟨m + 1, ?_⟩
        simp [List.filter_append, readAttempt_filter_gateReq, hm, List.replicate_succ]
      · rw [if_neg hr]
        refine ⟨1, ?_⟩
        simp [readAttempt_filter_gateReq]

theorem readRangeRetry_requests (gate : Bool) (hd : String) (bufLen : Nat)
    (jit : Nat → Nat) :
    ∀ (script : List S3Response) (a : Nat), ∃ m,
    (readRangeRetry gate hd bufLen jit a script).2.filter S3Event.isRequest
      = List.replicate m (S3Event.request hd) := by
  intro script
  induction script with
  | nil =>
    intro a
    exact ⟨0, rfl⟩
  | cons r rest ih =>
    intro a
    simp only [readRangeRetry]
    cases ha : (readAttempt gate hd bufLen r).1 with
    | error f =>
      refine ⟨1, ?_⟩
      simp [filterReq_logRetry, filterReq_sleep, readAttempt_filter_request]
    | ok body =>
      simp only []
      by_cases hr : isConnReset body.2 = true
      · rw [if_pos hr]
        obtain ⟨m, hm⟩ := ih (a + 1)
        refine ⟨m + 1, ?_⟩
        simp [List.filter_append, filterReq_logRetry, filterReq_sleep,
          readAttempt_filter_request, hm, List.replicate_succ]
      · rw [if_neg hr]
        refine ⟨1, ?_⟩
        simp [filterReq_logRetry, filterReq_sleep, readAttempt_filter_request]

theorem readRange_requests (gate : Bool) (hd : String) (bufLen : Nat) (jit : Nat → Nat)
    (script : List S3Response) : ∃ m,
    (readRange gate hd bufLen jit script).2.filter S3Event.isRequest
      = List.replicate m (S3Event.request hd) := by
  cases script with
  | nil => exact ⟨0, rfl⟩
  | cons r rest =>
    simp only [readRange]
    cases ha : (readAttempt gate hd bufLen r).1 with
    | error f =>
      refine ⟨1, ?_⟩
      simp [readAttempt_filter_request]
    | ok body =>
      simp only []
      by_cases hr : isConnReset body.2 = true
      · rw [if_pos hr]
        obtain ⟨m, hm⟩ := readRangeRetry_requests gate hd bufLen jit rest 0
        refine ⟨m + 1, ?_⟩
        simp [List.filter_append, readAttempt_filter_request, hm, List.replicate_succ]
      · rw [if_neg hr]
        refine ⟨1, ?_⟩
        simp [readAttempt_filter_request]

theorem count_join_replicate (b : S3Event) (L : List S3Event) :
    ∀ m, ((List.replicate m L).flatten).count b = m * L.count b := by
  intro m
  induction m with
  | zero => simp
  | succ m ih =>
    rw [List.replicate_succ, List.flatten_cons, List.count_append, ih]
    ring

/-! ## The claims -/

/-- C1: a ranged read (`readRange`) that fails with "connection reset by peer"
is retried with exponential backoff — first delay 128 µs (order of 100 µs),
target doubling per attempt, capped at 1024 ms (near 1 s), with random
jitter — indefinitely (`k` resets are followed by `k` retries, for every `k`)
until an attempt succeeds or returns a non-reset error; the final attempt's
result is returned unchanged, so any non-reset error (the `k = 0` instance;
`io.ErrUnexpectedEOF` from a short body is non-reset, as is no error) is
returned immediately with zero retries; and the trace shows each retry logging
the computed delay, then sleeping it, before the next request. -/
theorem C1_reset_retry_backoff (gate : Bool) (hd : String) (bufLen n0 nFin k : Nat)
    (jit : Nat → Nat) (errFin : Option GoError) (hfin : isConnReset errFin = false) :
    (readRange gate hd bufLen jit
        (List.replicate k (S3Response.ok (bufLen : Int) n0 (some connResetErr))
          ++ [S3Response.ok (bufLen : Int) nFin errFin])).1 = .ok (nFin, errFin)
    ∧ (readRange gate hd bufLen jit
        (List.replicate k (S3Response.ok (bufLen : Int) n0 (some connResetErr))
          ++ [S3Response.ok (bufLen : Int) nFin errFin])).2.filter (fun e => !e.isGate)
        = retryTrace hd jit k
    ∧ (∀ i, s3backoffMinNs ≤ backoffDuration jit i
        ∧ backoffDuration jit i ≤ s3backoffMinNs * 2 ^ i
        ∧ backoffDuration jit i ≤ s3backoffMaxNs)
    ∧ isConnReset (some GoError.unexpectedEOF) = false
    ∧ isConnReset none = false :=
  ⟨(readRange_run gate hd bufLen jit n0 nFin errFin hfin k).1,
   (readRange_run gate hd bufLen jit n0 nFin errFin hfin k).2,
   fun i => backoffDuration_bounds jit i, rfl, rfl⟩

theorem C1_reset_retry_backoff_witness :
    (readRange false "bytes=0-9" 10 (fun _ => 500)
        (List.replicate 2 (S3Response.ok (10 : Int) 0 (some connResetErr))
          ++ [S3Response.ok (10 : Int) 10 none])).1 = .ok (10, none)
    ∧ (readRange false "bytes=0-9" 10 (fun _ => 500)
        (List.replicate 2 (S3Response.ok (10 : Int) 0 (some connResetErr))
          ++ [S3Response.ok (10 : Int) 10 none])).2.filter (fun e => !e.isGate)
        = retryTrace "bytes=0-9" (fun _ => 500) 2
    ∧ (∀ i, s3backoffMinNs ≤ backoffDuration (fun _ => 500) i
        ∧ backoffDuration (fun _ => 500) i ≤ s3backoffMinNs * 2 ^ i
        ∧ backoffDuration (fun _ => 500) i ≤ s3backoffMaxNs)
    ∧ isConnReset (some GoError.unexpectedEOF) = false
    ∧ isConnReset none = false :=
  C1_reset_retry_backoff false "bytes=0-9" 10 0 10 2 (fun _ => 500) none (by decide)

/-- C2: on the canonical minimal varint encoding of any unsigned 64-bit value,
and of any signed 64-bit value under the zig-zag encoding, the unrolled
fast-path decoders return exactly the same decoded value and consumed byte
count as the canonical byte-at-a-time decoder (pair equality covers both), for
every occurring encoded length. -/
theorem C2_unrolled_agrees_canonical (v : Nat) (x : Int) (hv : v < 2 ^ 64)
    (hx1 : -2 ^ 63 ≤ x) (hx2 : x < 2 ^ 63) :
    unrolledDecodeUVarint (binaryPutUvarint v) = binaryUvarint (binaryPutUvarint v)
    ∧ unrolledDecodeVarint (binaryPutVarint x) = binaryVarint (binaryPutVarint x) := by
  have h1 := unrolledDecodeUVarint_put v [] hv
  have h2 := binaryUvarint_put v [] hv
  have h3 := unrolledDecodeVarint_put x [] hx1 hx2
  have h4 := binaryVarint_put x [] hx1 hx2
  rw [List.append_nil] at h1 h2 h3 h4
  exact ⟨by rw [h1, h2], by rw [h3, h4]⟩

theorem C2_unrolled_agrees_canonical_witness :
    unrolledDecodeUVarint (binaryPutUvarint 300) = binaryUvarint (binaryPutUvarint 300)
    ∧ unrolledDecodeVarint (binaryPutVarint (-7)) = binaryVarint (binaryPutVarint (-7)) :=
  C2_unrolled_agrees_canonical 300 (-7) (by norm_num) (by norm_num) (by norm_num)

/-- C3: constructing a reader whose index is in the supplied cache performs
zero network reads and leaves the cache unchanged; constructing one for an
uncached table performs exactly one ranged read, a tail read
(`bytes=-<size>`) of exactly `indexSize chunkCount + footerSize` bytes of the
object named by the table hash, parses the returned bytes into the index, and
(when a cache was supplied) puts that index into the cache exactly once; with
no cache supplied the same single read happens and nothing is put. -/
theorem C3_construct_cache (TI : Type) (indexSize : Nat → Nat) (footerSize : Nat)
    (parseTableIndex : List Nat → TI) (count : TI → Nat) (net : String → List Nat)
    (h : String) (chunkCount : Nat) (idx : TI)
    (hidx : count idx = chunkCount)
    (hlen : (net (tailRangeHeader (indexSize chunkCount + footerSize))).length
              = indexSize chunkCount + footerSize)
    (hcnt : count (parseTableIndex
              (net (tailRangeHeader (indexSize chunkCount + footerSize)))) = chunkCount) :
    newS3TableReader TI indexSize footerSize parseTableIndex count net h chunkCount
        (some (some idx))
      = (.ok idx, [], some (some idx))
    ∧ newS3TableReader TI indexSize footerSize parseTableIndex count net h chunkCount
        (some none)
      = (.ok (parseTableIndex (net (tailRangeHeader (indexSize chunkCount + footerSize)))),
         [ConstructEvent.rangedRead h (tailRangeHeader (indexSize chunkCount + footerSize))
            (indexSize chunkCount + footerSize), ConstructEvent.cachePut],
         some (some (parseTableIndex
           (net (tailRangeHeader (indexSize chunkCount + footerSize))))))
    ∧ newS3TableReader TI indexSize footerSize parseTableIndex count net h chunkCount none
      = (.ok (parseTableIndex (net (tailRangeHeader (indexSize chunkCount + footerSize)))),
         [ConstructEvent.rangedRead h (tailRangeHeader (indexSize chunkCount + footerSize))
            (indexSize chunkCount + footerSize)],
         none) := by
  refine ⟨?_, ?_, ?_⟩ <;>
    simp [newS3TableReader, hidx, hlen, hcnt]

theorem C3_construct_cache_witness :
    newS3TableReader Nat (fun c => 4 * c) 20 List.length (fun n => n / 8)
        (fun _ => List.replicate 40 0) "tablehash" 5 (some (some 40))
      = (.ok 40, [], some (some 40))
    ∧ newS3TableReader Nat (fun c => 4 * c) 20 List.length (fun n => n / 8)
        (fun _ => List.replicate 40 0) "tablehash" 5 (some none)
      = (.ok (List.length (List.replicate 40 0)),
         [ConstructEvent.rangedRead "tablehash" (tailRangeHeader (4 * 5 + 20)) (4 * 5 + 20),
          ConstructEvent.cachePut],
         some (some (List.length (List.replicate 40 0))))
    ∧ newS3TableReader Nat (fun c => 4 * c) 20 List.length (fun n => n / 8)
        (fun _ => List.replicate 40 0) "tablehash" 5 none
      = (.ok (List.length (List.replicate 40 0)),
         [ConstructEvent.rangedRead "tablehash" (tailRangeHeader (4 * 5 + 20)) (4 * 5 + 20)],
         none) :=
  C3_construct_cache Nat (fun c => 4 * c) 20 List.length (fun n => n / 8)
    (fun _ => List.replicate 40 0) "tablehash" 5 40 (by decide) (by simp) (by simp)

/-- C4: integrity mismatches are fatal and never retried.  (a) A cached index
whose chunk count differs from the caller-supplied count aborts construction
with the count-mismatch panic and performs no reads at all; (b) a parsed chunk
count that differs aborts construction after exactly the single bootstrap
read (no second read ever happens); (c) a ranged-read attempt whose successful
response declares a content length different from the requested buffer length
panics immediately: the result is the content-length fault, the trace is
exactly the one attempt with no retry log or sleep and a single request —
regardless of what further responses would have been available. -/
theorem C4_integrity_fatal (TI : Type) (indexSize : Nat → Nat) (footerSize : Nat)
    (parseTableIndex : List Nat → TI) (count : TI → Nat) (net : String → List Nat)
    (h : String) (chunkCount : Nat) (idx : TI) (gate : Bool) (hd : String)
    (bufLen n : Nat) (cl : Int) (err : Option GoError) (jit : Nat → Nat)
    (rest : List S3Response)
    (hidx : count idx ≠ chunkCount)
    (hlen : (net (tailRangeHeader (indexSize chunkCount + footerSize))).length
              = indexSize chunkCount + footerSize)
    (hcnt : count (parseTableIndex
              (net (tailRangeHeader (indexSize chunkCount + footerSize)))) ≠ chunkCount)
    (hcl : cl ≠ (bufLen : Int)) :
    newS3TableReader TI indexSize footerSize parseTableIndex count net h chunkCount
        (some (some idx))
      = (.error .panicCountMismatch, [], some (some idx))
    ∧ newS3TableReader TI indexSize footerSize parseTableIndex count net h chunkCount
        (some none)
      = (.error .panicCountMismatch,
         [ConstructEvent.rangedRead h (tailRangeHeader (indexSize chunkCount + footerSize))
            (indexSize chunkCount + footerSize), ConstructEvent.cachePut],
         some (some (parseTableIndex
           (net (tailRangeHeader (indexSize chunkCount + footerSize))))))
    ∧ (readRange gate hd bufLen jit (S3Response.ok cl n err :: rest)).1
        = .error .panicContentLength
    ∧ (readRange gate hd bufLen jit (S3Response.ok cl n err :: rest)).2
        = (readAttempt gate hd bufLen (S3Response.ok cl n err)).2
    ∧ (readRange gate hd bufLen jit
        (S3Response.ok cl n err :: rest)).2.filter S3Event.isRetryStep = []
    ∧ (readRange gate hd bufLen jit
        (S3Response.ok cl n err :: rest)).2.filter S3Event.isRequest
        = [S3Event.request hd] := by
  have hread : readRange gate hd bufLen jit (S3Response.ok cl n err :: rest)
      = (.error .panicContentLength, (readAttempt gate hd bufLen (S3Response.ok cl n err)).2) := by
    simp only [readRange]
    rw [readAttempt_badLength gate hd bufLen n cl err hcl]
  refine ⟨?_, ?_, ?_, ?_, ?_, ?_⟩
  · simp [newS3TableReader, hidx]
  · simp [newS3TableReader, hlen, hcnt]
  · rw [hread]
  · rw [hread]
  · rw [hread]
    exact readAttempt_filter_retryStep gate hd bufLen _
  · rw [hread]
    exact readAttempt_filter_request gate hd bufLen _

theorem C4_integrity_fatal_witness :
    newS3TableReader Nat (fun c => 4 * c) 20 List.length (fun n => n / 8)
        (fun _ => List.replicate 44 0) "tablehash" 6 (some (some 40))
      = (.error .panicCountMismatch, [], some (some 40))
    ∧ newS3TableReader Nat (fun c => 4 * c) 20 List.length (fun n => n / 8)
        (fun _ => List.replicate 44 0) "tablehash" 6 (some none)
      = (.error .panicCountMismatch,
         [ConstructEvent.rangedRead "tablehash" (tailRangeHeader (4 * 6 + 20)) (4 * 6 + 20),
          ConstructEvent.cachePut],
         some (some (List.length (List.replicate 44 (0 : Nat)))))
    ∧ (readRange false "bytes=0-9" 10 (fun _ => 500)
        (S3Response.ok 5 5 none :: [])).1 = .error .panicContentLength
    ∧ (readRange false "bytes=0-9" 10 (fun _ => 500)
        (S3Response.ok 5 5 none :: [])).2
        = (readAttempt false "bytes=0-9" 10 (S3Response.ok 5 5 none)).2
    ∧ (readRange false "bytes=0-9" 10 (fun _ => 500)
        (S3Response.ok 5 5 none :: [])).2.filter S3Event.isRetryStep = []
    ∧ (readRange false "bytes=0-9" 10 (fun _ => 500)
        (S3Response.ok 5 5 none :: [])).2.filter S3Event.isRequest
        = [S3Event.request "bytes=0-9"] :=
  C4_integrity_fatal Nat (fun c => 4 * c) 20 List.length (fun n => n / 8)
    (fun _ => List.replicate 44 0) "tablehash" 6 40 false "bytes=0-9" 10 5 5 none
    (fun _ => 500) [] (by decide) (by simp) (by simp) (by decide)

/-- C5: with a Rate-Limit Gate configured, every `readRange` execution's trace,
restricted to gate and request events, is a sequence of well-bracketed
`acquire, request, release` triples — every individual attempt acquires
exactly one slot before issuing its request and releases it on its exit path
(success, returned error, or panic; the release is a `defer`); in particular
the acquire and release counts of the whole trace are equal, so no execution
ends with a slot still held and a failed read cannot exhaust the gate. -/
theorem C5_gate_balanced (hd : String) (bufLen : Nat) (jit : Nat → Nat)
    (script : List S3Response) :
    (∃ m, (readRange true hd bufLen jit script).2.filter S3Event.isGateOrRequest
      = List.flatten (List.replicate m [S3Event.acquire, S3Event.request hd, S3Event.release]))
    ∧ ((readRange true hd bufLen jit script).2.count S3Event.acquire
        = (readRange true hd bufLen jit script).2.count S3Event.release) := by
  obtain ⟨m, hm⟩ := readRange_gateBlocks hd bufLen jit script
  refine ⟨⟨m, hm⟩, ?_⟩
  have ha : (readRange true hd bufLen jit script).2.count S3Event.acquire
      = ((readRange true hd bufLen jit script).2.filter S3Event.isGateOrRequest).count
          S3Event.acquire := by
    rw [List.count_filter]
    rfl
  have hr : (readRange true hd bufLen jit script).2.count S3Event.release
      = ((readRange true hd bufLen jit script).2.filter S3Event.isGateOrRequest).count
          S3Event.release := by
    rw [List.count_filter]
    rfl
  rw [ha, hr, hm, count_join_replicate, count_join_replicate]
  simp [List.count_cons]

/-- C6: decoding the float encoding of a finite float — its normalized dyadic
pair `(m, e)`, odd mantissa or the zero pair — returns exactly that pair, with
the reader consuming exactly the bytes the writer produced; and the encoding
is canonical: the pair is uniquely determined by the denoted value (and
`writeFloat` is a function of the pair, so repeated encodes are identical). -/
theorem C6_float_roundtrip_canonical (m e m2 e2 : Int)
    (hn : dyadicNormal m e) (hn2 : dyadicNormal m2 e2)
    (hm1 : -2 ^ 63 ≤ m) (hm2 : m < 2 ^ 63) (he1 : -2 ^ 63 ≤ e) (he2 : e < 2 ^ 63)
    (hval : dyadicVal m2 e2 = dyadicVal m e) :
    readFloat (writeFloat m e) = ((m, e), (writeFloat m e).length)
    ∧ (m2 = m ∧ e2 = e) :=
  ⟨readFloat_writeFloat m e hm1 hm2 he1 he2, dyadic_unique m2 e2 m e hn2 hn hval⟩

theorem C6_float_roundtrip_canonical_witness :
    readFloat (writeFloat 3 1) = ((3, 1), (writeFloat 3 1).length)
    ∧ ((3 : Int) = 3 ∧ (1 : Int) = 1) :=
  C6_float_roundtrip_canonical 3 1 3 1 (Or.inl (by decide)) (Or.inl (by decide))
    (by norm_num) (by norm_num) (by norm_num) (by norm_num) rfl

/-- C7: decoding the varint encoding of any `u64` value (and of any `i64`
value under the zig-zag scheme) yields that value back together with the full
encoded length, and the encoding's length is minimal: it fits within `k`
bytes exactly when the value fits in `7k` payload bits, so there is no
redundant continuation byte. -/
theorem C7_varint_roundtrip_minimal (v : Nat) (x : Int) (k : Nat)
    (hv : v < 2 ^ 64) (hx1 : -2 ^ 63 ≤ x) (hx2 : x < 2 ^ 63) (hk : 1 ≤ k) :
    binaryUvarint (binaryPutUvarint v) = (v, ((binaryPutUvarint v).length : Int))
    ∧ binaryVarint (binaryPutVarint x) = (x, ((binaryPutVarint x).length : Int))
    ∧ ((binaryPutUvarint v).length ≤ k ↔ v < 128 ^ k) := by
  have h1 := binaryUvarint_put v [] hv
  have h2 := binaryVarint_put x [] hx1 hx2
  rw [List.append_nil] at h1 h2
  refine ⟨h1, h2, ?_⟩
  have h3 := putUvarint_length_le (k - 1) v
  rw [show k - 1 + 1 = k by omega] at h3
  exact h3

theorem C7_varint_roundtrip_minimal_witness :
    binaryUvarint (binaryPutUvarint 777) = (777, ((binaryPutUvarint 777).length : Int))
    ∧ binaryVarint (binaryPutVarint (-300)) = (-300, ((binaryPutVarint (-300)).length : Int))
    ∧ ((binaryPutUvarint 777).length ≤ 2 ↔ 777 < 128 ^ 2) :=
  C7_varint_roundtrip_minimal 777 (-300) 2 (by norm_num) (by norm_num) (by norm_num)
    (by norm_num)

/-- C8: the float encoder produces exactly the spec's two-byte vectors on the
nine given inputs (each value shown as its normalized dyadic pair:
`0 = (0,0)`, `1 = (1,0)`, `2 = (1,1)`, `-2 = (-1,1)`, `0.5 = (1,-1)`,
`-0.5 = (-1,-1)`, `0.25 = (1,-2)`, `256 = (1,8)`, `-15 = (-15,0)`), and the
decoder maps each byte sequence back to the corresponding value, consuming
both bytes. -/
theorem C8_float_vectors :
    writeFloat 0 0 = [0, 0]
    ∧ writeFloat 1 0 = [2, 0]
    ∧ writeFloat 1 1 = [2, 2]
    ∧ writeFloat (-1) 1 = [1, 2]
    ∧ writeFloat 1 (-1) = [2, 1]
    ∧ writeFloat (-1) (-1) = [1, 1]
    ∧ writeFloat 1 (-2) = [2, 3]
    ∧ writeFloat 1 8 = [2, 16]
    ∧ writeFloat (-15) 0 = [29, 0]
    ∧ readFloat [0, 0] = ((0, 0), 2)
    ∧ readFloat [2, 0] = ((1, 0), 2)
    ∧ readFloat [2, 2] = ((1, 1), 2)
    ∧ readFloat [1, 2] = ((-1, 1), 2)
    ∧ readFloat [2, 1] = ((1, -1), 2)
    ∧ readFloat [1, 1] = ((-1, -1), 2)
    ∧ readFloat [2, 3] = ((1, -2), 2)
    ∧ readFloat [2, 16] = ((1, 8), 2)
    ∧ readFloat [29, 0] = ((-15, 0), 2) := by
  refine ⟨?_, ?_, ?_, ?_, ?_, ?_, ?_, ?_, ?_, by decide⟩
  all_goals
    (simp only [writeFloat, binaryPutVarint]
     norm_num [Int.toNat_ofNat]
     first
       | rfl
       | (rw [putUvarint_single (by decide), putUvarint_single (by decide)]; rfl)
       | (rw [putUvarint_single (by decide)]; rfl))

/-- C9: for every offset and every buffer length `n ≥ 1`, `ReadAt` forms the
range header as the ASCII string `bytes=<off>-<end>` with `end = off + n - 1`,
an inclusive range of exactly `n` bytes, and every request its `readRange`
issues carries exactly that header. -/
theorem C9_readAt_inclusive_range (gate : Bool) (off : Int) (n : Nat) (jit : Nat → Nat)
    (script : List S3Response) (hn : 1 ≤ n) :
    readAtHeader off n = "bytes=" ++ toString off ++ "-" ++ toString (off + (n : Int) - 1)
    ∧ (off + (n : Int) - 1) + 1 - off = (n : Int)
    ∧ (∃ m, (s3ReadAt gate off n jit script).2.filter S3Event.isRequest
        = List.replicate m (S3Event.request (readAtHeader off n))) :=
  ⟨rfl, by ring, readRange_requests gate (readAtHeader off n) n jit script⟩

theorem C9_readAt_inclusive_range_witness :
    readAtHeader 100 10
        = "bytes=" ++ toString (100 : Int) ++ "-" ++ toString ((100 : Int) + (10 : Int) - 1)
    ∧ ((100 : Int) + (10 : Int) - 1) + 1 - 100 = (10 : Int)
    ∧ (∃ m, (s3ReadAt true 100 10 (fun _ => 500) []).2.filter S3Event.isRequest
        = List.replicate m (S3Event.request (readAtHeader 100 10))) :=
  C9_readAt_inclusive_range true 100 10 (fun _ => 500) [] (by norm_num)

/-- C10: a successful `tableEditor.Update` whose old and new primary keys
differ (and whose new key is not in the table) leaves the pending map editor
with the old key removed and everything else — in particular the new key's
entry — unchanged: the new row is never inserted.  The new row's value is
written only in the equal-keys branch, at that key. -/
theorem C10_update_pk_change (table : Nat → Bool) (ed : Nat → Option Nat)
    (oldKey newKey newVal : Nat) (hne : oldKey ≠ newKey) (hfree : table newKey = false) :
    tableEditorUpdate table ed oldKey newKey newVal
        = .ok (fun k => if k = oldKey then none else ed k)
    ∧ (∀ edNew, tableEditorUpdate table ed oldKey newKey newVal = .ok edNew →
         edNew oldKey = none ∧ edNew newKey = ed newKey
           ∧ ∀ k, k ≠ oldKey → edNew k = ed k)
    ∧ tableEditorUpdate table ed oldKey oldKey newVal
        = .ok (fun k => if k = oldKey then some newVal else ed k) := by
  have hupd : tableEditorUpdate table ed oldKey newKey newVal
      = .ok (fun k => if k = oldKey then none else ed k) := by
    simp [tableEditorUpdate, hne, hfree]
  refine ⟨hupd, ?_, by simp [tableEditorUpdate]⟩
  intro edNew hEd
  rw [hupd] at hEd
  injection hEd with hEd
  subst hEd
  refine ⟨by simp, ?_, ?_⟩
  · simp [Ne.symm hne]
  · intro k hk
    simp [hk]

theorem C10_update_pk_change_witness :
    tableEditorUpdate (fun _ => false) (fun k => if k = 1 then some 10 else none) 1 2 20
        = .ok (fun k => if k = 1 then none
            else if k = 1 then some 10 else none)
    ∧ (∀ edNew,
         tableEditorUpdate (fun _ => false) (fun k => if k = 1 then some 10 else none) 1 2 20
           = .ok edNew →
         edNew 1 = none
           ∧ edNew 2 = (if (2 : Nat) = 1 then some 10 else none)
           ∧ ∀ k, k ≠ 1 → edNew k = (if k = 1 then some 10 else none))
    ∧ tableEditorUpdate (fun _ => false) (fun k => if k = 1 then some 10 else none) 1 1 20
        = .ok (fun k => if k = 1 then some 20
            else if k = 1 then some 10 else none) :=
  C10_update_pk_change (fun _ => false) (fun k => if k = 1 then some 10 else none) 1 2 20
    (by decide) rfl

end DoltNbs